import Mathlib

/-!
# Verification of the `project_ratio` production-chain core

Shallow embedding of the Python sources under `src/project_pyratio/` :
`products.py`, `facilities.py`, `recipes.py`, `rates.py`, `factories.py`,
`abbreviations.py`, `recipe_readers.py`, `rational_utilities.py`.

Modelling conventions:
* Python `Fraction` is `Rat`; `Time` values are their `seconds` field and
  `Rate` values are their `per_second` field, both exact rationals.
* Python `dict[Product, Rate]` is an association list in insertion order,
  with `dictSet` updating an existing key in place (Python 3.7+ keeps the
  original position of an updated key) and appending a fresh key.
* Python exceptions become `Except Err` results; each distinct `raise`
  site, and each defect that raises a non-`ValueError` exception
  (`UnboundLocalError`, `NameError`, unbounded recursion), gets its own
  `Err` constructor.
* The `RecipeCrafter.rates` property ends in `return self.rates`, which
  re-enters the property itself, so any call to it recurses without bound.
  We model it with an explicit fuel argument: `none` means the recursion
  consumed all fuel, i.e. the call does not terminate for any bound.
* Strings are Lean `String`s; all file lines handled by the parsers have
  already been `str.strip()`ped by the reader and contain no newline.
-/

namespace PyRatio

/-- Error type collecting every exception the embedded code can raise.
Constructors mirror the individual `raise` statements of the sources;
`unboundLocalAutoname`, `nameErrorProductname` and `keyErrorTarget` model
Python `UnboundLocalError` / `NameError` / `KeyError` escapes rather than
intentional `ValueError`s. -/
inductive Err where
  /-- `products.py` / `facilities.py` / `recipes.py`: empty or all-whitespace name. -/
  | invalidName : Err
  /-- `recipes.py`: `name is None` with `len(outputs) != 1`; Python raises
  `UnboundLocalError` because `autoname` was never assigned. -/
  | unboundLocalAutoname : Err
  /-- `recipes.py`: `recipe output collection is empty`. -/
  | emptyOutputs : Err
  /-- `recipes.py`: `recipe input collection is empty`. -/
  | emptyInputs : Err
  /-- `factories.py`: `RecipeProducer should not have howmany <= 0`. -/
  | nonPositiveMultiplicity : Err
  /-- `factories.py`: `given recipe does not produce goal product`. -/
  | recipeDoesNotProduce : Err
  /-- `factories.py`: `product must exist to check if ignored` /
  `product must exist to be set as ignored`. -/
  | productMustExist : Err
  /-- `factories.py`: `cannot connect same crafter to a factory twice`. -/
  | duplicateCrafter : Err
  /-- `factories.py`: `crafter must be factory-connected to upgrade`. -/
  | crafterNotConnected : Err
  /-- `factories.py`: `upgrading crafter does not produce target product`. -/
  | crafterDoesNotProduceTarget : Err
  /-- `factories.py`: `final upgraded crafter rate must be positive`. -/
  | nonPositiveResultingRate : Err
  /-- `factories.py` line 240: `rc.rates[target]` on a missing key raises `KeyError`. -/
  | keyErrorTarget : Err
  /-- `abbreviations.py`: empty or non-alphabetic abbreviation string. -/
  | invalidAbbreviation : Err
  /-- `abbreviations.py`: `found no strings matching abbreviation`. -/
  | noMatch : Err
  /-- `abbreviations.py`: `too many strings match abbreviation`, with the matches. -/
  | ambiguous (found : List String) : Err
  /-- `recipe_readers.py`: `arrow line index out of bounds`. -/
  | arrowOutOfBounds : Err
  /-- `recipe_readers.py`: `unable to parse arrow line`. -/
  | malformedArrowLine : Err
  /-- `recipe_readers.py`: `started to parse nametag line before end of recipe`. -/
  | nametagBeforeEnd : Err
  /-- `recipe_readers.py`: `unable to parse nametag line`. -/
  | malformedNametagLine : Err
  /-- `rational_utilities.py`: `string could not be read as a rational`. -/
  | badRational : Err
  /-- `recipe_readers.py` line 89: the product branch of the substitution
  pass evaluates the undefined variable `productname`; Python raises `NameError`. -/
  | nameErrorProductname : Err
deriving DecidableEq, Repr

/-- `str.strip()` on the whitespace characters relevant to the data files. -/
def pyStrip (s : String) : String :=
  ((s.toList.dropWhile Char.isWhitespace).reverse.dropWhile Char.isWhitespace).reverse.asString

/-- `products.py` `Product`: a frozen dataclass holding a stripped non-empty name. -/
structure Product where
  name : String
deriving DecidableEq, Repr

/-- `Product.__init__`: strips the name and rejects an empty result. -/
def mkProduct (name : String) : Except Err Product :=
  let n := pyStrip name
  if n = "" then .error .invalidName else .ok ⟨n⟩

/-- `products.py` `ProductQuantity[T]`: a quantity paired with a product. -/
structure ProductQuantity (T : Type) where
  quantity : T
  product : Product
deriving DecidableEq, Repr

/-- `facilities.py` `FacilityCategory`: stripped non-empty name. -/
structure FacilityCategory where
  name : String
deriving DecidableEq, Repr

/-- `FacilityCategory.__init__`. -/
def mkFacilityCategory (name : String) : Except Err FacilityCategory :=
  let n := pyStrip name
  if n = "" then .error .invalidName else .ok ⟨n⟩

/-- `facilities.py` `Facility`: category, adjective and rational speed multiplier. -/
structure Facility where
  category : FacilityCategory
  adjective : String
  speed : Rat
deriving DecidableEq, Repr

/-- `recipes.py` `Recipe` after construction: name, canonically ordered
outputs and inputs, period in seconds, facility category. -/
structure Recipe where
  name : String
  outputs : List (ProductQuantity Int)
  inputs : List (ProductQuantity Int)
  period : Rat
  made_in : FacilityCategory
deriving DecidableEq, Repr

/-! ## Python dicts keyed by `Product`

Association lists in insertion order. `dictSet` models `d[k] = v`:
an existing key keeps its position, a fresh key is appended. -/

/-- The rate map `dict[Product, Rate]` of `factories.py`. -/
abbrev RateDict := List (Product × Rat)

/-- `d.get(p)` as an `Option`. -/
def dictFind? (d : RateDict) (p : Product) : Option Rat :=
  (d.find? (fun e => e.1 = p)).map (fun e => e.2)

/-- `d.get(p, v)`. -/
def dictGetD (d : RateDict) (p : Product) (v : Rat) : Rat :=
  (dictFind? d p).getD v

/-- `p in d`. -/
def dictMem (d : RateDict) (p : Product) : Bool :=
  d.any (fun e => e.1 = p)

/-- `d[p] = v`. -/
def dictSet (d : RateDict) (p : Product) (v : Rat) : RateDict :=
  if dictMem d p then d.map (fun e => if e.1 = p then (p, v) else e)
  else d ++ [(p, v)]

/-! ## `factories.py`: `RecipeCrafter` -/

/-- `RecipeCrafter` state: recipe, facility, fractional building count
`how_many`, and the mutable `_rates` cache (empty after `__init__`). -/
structure RecipeCrafter where
  recipe : Recipe
  facility : Facility
  how_many : Rat
  ratesCache : RateDict
deriving DecidableEq, Repr

/-- `RecipeCrafter.__init__`: rejects `how_many <= 0`, starts with an empty
`_rates` cache. -/
def mkRecipeCrafter (recipe : Recipe) (facility : Facility) (how_many : Rat) :
    Except Err RecipeCrafter :=
  if how_many ≤ 0 then .error .nonPositiveMultiplicity
  else .ok ⟨recipe, facility, how_many, []⟩

/-- `RecipeCrafter._compute_rates`: for every output add
`(quantity / period) * speed * how_many` to that product's entry, for every
input subtract it; entries for the same product accumulate.
(`quantity / period` reaches `Rate` via `Time.__rtruediv__`, giving the
rational `quantity / seconds`.) -/
def RecipeCrafter.computeRates (rc : RecipeCrafter) : RateDict :=
  let d := rc.recipe.outputs.foldl (fun d out =>
    dictSet d out.product
      (dictGetD d out.product 0 +
        (out.quantity : Rat) / rc.recipe.period * rc.facility.speed * rc.how_many)) []
  rc.recipe.inputs.foldl (fun d inp =>
    dictSet d inp.product
      (dictGetD d inp.product 0 -
        (inp.quantity : Rat) / rc.recipe.period * rc.facility.speed * rc.how_many)) d

/-- The `RecipeCrafter.rates` property, with fuel.  The Python body is

```
if len(self._rates) == 0:
    self._compute_rates()
return self.rates
```

`return self.rates` re-invokes the property itself (not the `_rates`
field), so after the conditional recomputation the accessor re-enters
itself unconditionally.  `none` means the given recursion budget was
exhausted; the accessor terminates for no budget. -/
def ratesFuel (rc : RecipeCrafter) : Nat → RateDict → Option RateDict
  | 0, _ => none
  | fuel + 1, cache =>
      let cache' := if cache.length = 0 then rc.computeRates else cache
      ratesFuel rc fuel cache'

/-- Reading `rc.rates` starting from the crafter's own cache. -/
def readRatesFuel (rc : RecipeCrafter) (fuel : Nat) : Option RateDict :=
  ratesFuel rc fuel rc.ratesCache

/-- The broken accessor exhausts every fuel budget: the recursion
`return self.rates` never returns. -/
theorem ratesFuel_eq_none (rc : RecipeCrafter) :
    ∀ (fuel : Nat) (cache : RateDict), ratesFuel rc fuel cache = none := by
  intro fuel
  induction fuel with
  | zero => intro cache; rfl
  | succ n ih => intro cache; exact ih _

theorem readRatesFuel_eq_none (rc : RecipeCrafter) (fuel : Nat) :
    readRatesFuel rc fuel = none :=
  ratesFuel_eq_none rc fuel rc.ratesCache

/-- `RecipeCrafter.with_goal`, with fuel: build a crafter at multiplicity 1,
read `rc.rates` (the broken property), check the unit rate for the goal
product, scale `how_many` and recompute.  Everything after the property
read is dead code because the read never returns. -/
def withGoalFuel (recipe : Recipe) (facility : Facility)
    (goal : ProductQuantity Rat) (fuel : Nat) : Option (Except Err RecipeCrafter) :=
  match mkRecipeCrafter recipe facility 1 with
  | .error e => some (.error e)
  | .ok rc =>
    match readRatesFuel rc fuel with
    | none => none
    | some rates =>
      -- `if p not in rc.rates or rc.rates[p] <= Rate.zero()`
      if ¬ dictMem rates goal.product ∨ dictGetD rates goal.product 0 ≤ 0 then
        some (.error .recipeDoesNotProduce)
      else
        let rate_ratio := goal.quantity / dictGetD rates goal.product 0
        let rc' : RecipeCrafter := { rc with how_many := rc.how_many * rate_ratio }
        some (.ok { rc' with ratesCache := rc'.computeRates })

/-! ## `factories.py`: `Factory` -/

/-- `Factory` state: goal, connected crafters, the `_rates` cache and the
`ignored_rates` flag dict. -/
structure Factory where
  goal : ProductQuantity Rat
  crafters : List RecipeCrafter
  ratesCache : RateDict
  ignoredRates : List (Product × Bool)
deriving DecidableEq, Repr

/-- `Factory.__init__`. -/
def mkFactory (goal : ProductQuantity Rat) : Factory :=
  ⟨goal, [], [], []⟩

/-- The crafter-merging loop of `Factory._compute_rates`, with fuel for the
`crafter.rates` property reads. -/
def factoryMergeFuel (fuel : Nat) : List RecipeCrafter → RateDict → Option RateDict
  | [], d => some d
  | c :: cs, d =>
    match readRatesFuel c fuel with
    | none => none
    | some r =>
      factoryMergeFuel fuel cs
        (r.foldl (fun d e => dictSet d e.1 (dictGetD d e.1 0 + e.2)) d)

/-- `Factory._compute_rates`, with fuel: start from
`{goal.product: -goal.quantity}` and merge every connected crafter's rate
map, read through the (broken) `RecipeCrafter.rates` property. -/
def factoryComputeRatesFuel (f : Factory) (fuel : Nat) : Option RateDict :=
  factoryMergeFuel fuel f.crafters (dictSet [] f.goal.product (-f.goal.quantity))

/-- The `Factory.rates` property reads `self._rates` directly (this one is
written correctly), recomputing first when the cache is empty. -/
def factoryRatesFuel (f : Factory) (fuel : Nat) : Option RateDict :=
  if f.ratesCache.length = 0 then factoryComputeRatesFuel f fuel
  else some f.ratesCache

/-- The loop body of `Factory.find_crafters`, with fuel. -/
def findCraftersGoFuel (p : Product) (fuel : Nat) :
    List RecipeCrafter → Option (List RecipeCrafter)
  | [] => some []
  | c :: cs =>
    match readRatesFuel c fuel with
    | none => none
    | some r =>
      match findCraftersGoFuel p fuel cs with
      | none => none
      | some rest =>
        if dictMem r p ∧ 0 < dictGetD r p 0 then some (c :: rest) else some rest

/-- `Factory.find_crafters`, with fuel: every connected crafter whose net
rate for `p` is strictly positive (reads each crafter's broken property). -/
def findCraftersFuel (f : Factory) (p : Product) (fuel : Nat) :
    Option (List RecipeCrafter) :=
  findCraftersGoFuel p fuel f.crafters

/-- `Factory.upgrade_crafter`, with fuel.  After the connectivity check the
body reads `rc.rates` through the broken property several times; control
can never pass the first read (`ratesFuel_eq_none`), so the remaining
reads are modelled by reusing the value `r` of that first read. -/
def upgradeCrafterFuel (f : Factory) (rc : RecipeCrafter)
    (production_increase : ProductQuantity Rat) (fuel : Nat) :
    Option (Except Err Factory) :=
  let target := production_increase.product
  let delta_rate := production_increase.quantity
  if rc ∉ f.crafters then some (.error .crafterNotConnected)
  else
    match readRatesFuel rc fuel with
    | none => none
    | some r =>
      if dictMem r target ∧ dictGetD r target 0 ≤ 0 then
        some (.error .crafterDoesNotProduceTarget)
      else
        match dictFind? r target with
        | none => some (.error .keyErrorTarget)
        | some current =>
          if current + delta_rate ≤ 0 then some (.error .nonPositiveResultingRate)
          else
            let upgrade_scale := (current + delta_rate) / current
            let rc' : RecipeCrafter := { rc with how_many := rc.how_many * upgrade_scale }
            let rc'' : RecipeCrafter := { rc' with ratesCache := rc'.computeRates }
            let f' : Factory :=
              { f with crafters := f.crafters.map (fun c => if c = rc then rc'' else c) }
            match factoryComputeRatesFuel f' fuel with
            | none => none
            | some d => some (.ok { f' with ratesCache := d })

/-! ## `Factory.is_ignored` and `Factory.negative_rates`

Unlike the crafter's accessor, the `Factory.rates` property correctly
returns `self._rates` (recomputing first when the cache is empty; the
recomputation terminates only for crafter-free factories, see C2).
`ratesView` models `self.rates` for a factory whose `_rates` cache holds
the current rate map. -/

/-- The factory's current rate map, `self.rates` read from the populated
`_rates` cache. -/
def Factory.ratesView (f : Factory) : RateDict := f.ratesCache

/-- `self.ignored_rates.get(p, False)`. -/
def Factory.isIgnoredFlag (f : Factory) (p : Product) : Bool :=
  ((f.ignoredRates.find? (fun e => e.1 = p)).map (fun e => e.2)).getD false

/-- `Factory.is_ignored`: raises unless `p` is in `self.rates`, then
returns `self.ignored_rates.get(p, False)`. -/
def Factory.isIgnored (f : Factory) (p : Product) : Except Err Bool :=
  if ¬ dictMem f.ratesView p then .error .productMustExist
  else .ok (f.isIgnoredFlag p)

/-- The loop of `Factory.negative_rates`, accumulating `negatives`. -/
def negRatesGo (f : Factory) : List (Product × Rat) → RateDict → Except Err RateDict
  | [], acc => .ok acc
  | e :: es, acc =>
    match f.isIgnored e.1 with
    | .error err => .error err
    | .ok ig => negRatesGo f es (if ¬ig ∧ e.2 < 0 then dictSet acc e.1 e.2 else acc)

/-- `Factory.negative_rates`: the products with a strictly negative current
rate that are not ignored, mapped to those rates. -/
def Factory.negativeRates (f : Factory) : Except Err RateDict :=
  negRatesGo f f.ratesView []

/-! ## Concrete entities for the spec's end-to-end example (§8) -/

def ironIngot : Product := ⟨"Iron Ingot"⟩

def ironOre : Product := ⟨"Iron Ore"⟩

def slag : Product := ⟨"Slag"⟩

def smelterCat : FacilityCategory := ⟨"Smelter"⟩

def arcSmelter : Facility := ⟨smelterCat, "Arc", 1⟩

/-- The recipe producing 1 Iron Ingot from 1 Iron Ore every 1 s in a Smelter. -/
def ironRecipe : Recipe := ⟨"Iron Ingot", [⟨1, ironIngot⟩], [⟨1, ironOre⟩], 1, smelterCat⟩

/-- A freshly constructed crafter for `ironRecipe` at multiplicity 1. -/
def ironCrafter : RecipeCrafter := ⟨ironRecipe, arcSmelter, 1, []⟩

/-- A factory with goal 2/s Iron Ingot and `ironCrafter` connected. -/
def ironFactory : Factory := ⟨⟨2, ironIngot⟩, [ironCrafter], [], []⟩

/-! ## Divergence of every operation that reads `RecipeCrafter.rates` -/

theorem withGoalFuel_eq_none (recipe : Recipe) (facility : Facility)
    (goal : ProductQuantity Rat) (fuel : Nat) :
    withGoalFuel recipe facility goal fuel = none := by
  have h1 : ¬ ((1 : Rat) ≤ 0) := by norm_num
  simp [withGoalFuel, mkRecipeCrafter, h1, readRatesFuel_eq_none]

theorem factoryMergeFuel_eq_none (fuel : Nat) (c : RecipeCrafter)
    (cs : List RecipeCrafter) (d : RateDict) :
    factoryMergeFuel fuel (c :: cs) d = none := by
  simp [factoryMergeFuel, readRatesFuel_eq_none]

theorem factoryComputeRatesFuel_eq_none (f : Factory) (fuel : Nat)
    (h : f.crafters ≠ []) : factoryComputeRatesFuel f fuel = none := by
  match hc : f.crafters with
  | [] => exact absurd hc h
  | c :: cs => rw [factoryComputeRatesFuel, hc]; exact factoryMergeFuel_eq_none ..

theorem findCraftersFuel_eq_none (f : Factory) (p : Product) (fuel : Nat)
    (h : f.crafters ≠ []) : findCraftersFuel f p fuel = none := by
  match hc : f.crafters with
  | [] => exact absurd hc h
  | c :: cs =>
    rw [findCraftersFuel, hc]
    simp [findCraftersGoFuel, readRatesFuel_eq_none]

theorem upgradeCrafterFuel_eq_none (f : Factory) (rc : RecipeCrafter)
    (d : ProductQuantity Rat) (fuel : Nat) (h : rc ∈ f.crafters) :
    upgradeCrafterFuel f rc d fuel = none := by
  simp [upgradeCrafterFuel, h, readRatesFuel_eq_none]

/-- C2: for every `RecipeCrafter`, reading the public `rates` accessor never
terminates — the property body returns `self.rates` (the property itself)
instead of the computed map `self._rates`, so after `_compute_rates` fills
the map the accessor unconditionally re-enters itself; consequently every
operation that reads crafter rates through this accessor (`with_goal`,
`Factory` rate aggregation, `find_crafters`, `upgrade_crafter`) diverges
(exhausts every fuel budget) instead of returning the computed rate map. -/
theorem c2_rates_accessor_diverges :
    (∀ (rc : RecipeCrafter) (fuel : Nat) (cache : RateDict),
      ratesFuel rc fuel cache = none) ∧
    (∀ (recipe : Recipe) (facility : Facility) (goal : ProductQuantity Rat)
      (fuel : Nat), withGoalFuel recipe facility goal fuel = none) ∧
    (∀ (f : Factory) (fuel : Nat), f.crafters ≠ [] →
      factoryComputeRatesFuel f fuel = none) ∧
    (∀ (f : Factory) (p : Product) (fuel : Nat), f.crafters ≠ [] →
      findCraftersFuel f p fuel = none) ∧
    (∀ (f : Factory) (rc : RecipeCrafter) (d : ProductQuantity Rat)
      (fuel : Nat), rc ∈ f.crafters → upgradeCrafterFuel f rc d fuel = none) :=
  ⟨ratesFuel_eq_none, withGoalFuel_eq_none,
   factoryComputeRatesFuel_eq_none, findCraftersFuel_eq_none,
   upgradeCrafterFuel_eq_none⟩

/-- Witness for C2 at the concrete Iron Ingot crafter and factory. -/
theorem c2_rates_accessor_diverges_witness :
    ratesFuel ironCrafter 9 [] = none ∧
    withGoalFuel ironRecipe arcSmelter ⟨2, ironIngot⟩ 9 = none ∧
    factoryComputeRatesFuel ironFactory 9 = none ∧
    findCraftersFuel ironFactory ironIngot 9 = none ∧
    upgradeCrafterFuel ironFactory ironCrafter ⟨-5, ironIngot⟩ 9 = none :=
  ⟨c2_rates_accessor_diverges.1 ironCrafter 9 [],
   c2_rates_accessor_diverges.2.1 ironRecipe arcSmelter ⟨2, ironIngot⟩ 9,
   c2_rates_accessor_diverges.2.2.1 ironFactory 9 (by decide),
   c2_rates_accessor_diverges.2.2.2.1 ironFactory ironIngot 9 (by decide),
   c2_rates_accessor_diverges.2.2.2.2 ironFactory ironCrafter ⟨-5, ironIngot⟩ 9
     (by decide)⟩

/-- At multiplicity 1 the Iron Ingot crafter's computed net rate for its
output product is exactly `1/s`. -/
theorem ironCrafter_computeRates_ironIngot :
    dictGetD ironCrafter.computeRates ironIngot 0 = 1 := by
  simp [RecipeCrafter.computeRates, ironCrafter, ironRecipe, ironIngot, ironOre,
    arcSmelter, smelterCat, dictGetD, dictFind?, dictSet, dictMem]

/-- C1 (code bug): `ironRecipe` nets `+1/s` of Iron Ingot at multiplicity 1
(so the claim's precondition holds and `with_goal` was supposed to succeed
with net rate exactly `2/s`), but `with_goal` reads the crafter's broken
`rates` property and therefore diverges for every recursion budget instead
of returning a crafter. -/
theorem c1_with_goal_diverges :
    0 < dictGetD ironCrafter.computeRates ironIngot 0 ∧
    ∀ fuel : Nat, withGoalFuel ironRecipe arcSmelter ⟨2, ironIngot⟩ fuel = none :=
  ⟨by rw [ironCrafter_computeRates_ironIngot]; norm_num,
   fun fuel => withGoalFuel_eq_none ironRecipe arcSmelter ⟨2, ironIngot⟩ fuel⟩

/-- C4 (code bug): `ironCrafter`'s computed net rate for Iron Ingot is `1/s`
(strictly positive) and the delta `-5/s` drives it to `-4/s ≤ 0`, so per the
claim `upgrade_crafter` should fail with `NonPositiveResultingRate` leaving
the multiplicity unchanged; instead the call reads the crafter's broken
`rates` property right after the connectivity check and diverges for every
recursion budget. -/
theorem c4_upgrade_crafter_diverges :
    0 < dictGetD ironCrafter.computeRates ironIngot 0 ∧
    dictGetD ironCrafter.computeRates ironIngot 0 + (-5) ≤ 0 ∧
    ∀ fuel : Nat,
      upgradeCrafterFuel ironFactory ironCrafter ⟨-5, ironIngot⟩ fuel = none :=
  ⟨by rw [ironCrafter_computeRates_ironIngot]; norm_num,
   by rw [ironCrafter_computeRates_ironIngot]; norm_num,
   fun fuel =>
     upgradeCrafterFuel_eq_none ironFactory ironCrafter ⟨-5, ironIngot⟩ fuel
       (by decide)⟩

/-! ## C3: characterization of `negative_rates` -/

theorem dictMem_of_mem {d : RateDict} {e : Product × Rat} (he : e ∈ d) :
    dictMem d e.1 = true := by
  simp only [dictMem, List.any_eq_true, decide_eq_true_eq]
  exact ⟨e, he, rfl⟩

theorem dictMem_append (d₁ d₂ : RateDict) (p : Product) :
    dictMem (d₁ ++ d₂) p = (dictMem d₁ p || dictMem d₂ p) :=
  List.any_append

theorem dictSet_of_not_mem {d : RateDict} {p : Product} (v : Rat)
    (h : dictMem d p = false) : dictSet d p v = d ++ [(p, v)] := by
  simp [dictSet, h]

theorem dictFind?_eq_none {d : RateDict} {p : Product}
    (h : dictMem d p = false) : dictFind? d p = none := by
  simp only [dictMem, List.any_eq_false, decide_eq_true_eq] at h
  simp only [dictFind?, Option.map_eq_none', List.find?_eq_none, decide_eq_true_eq]
  exact h

/-- With fresh, pairwise-distinct keys and every key present in the factory's
rate map, the `negative_rates` loop appends exactly the non-ignored strictly
negative entries. -/
theorem negRatesGo_eq_filter (f : Factory) :
    ∀ (es : List (Product × Rat)) (acc : RateDict),
      (∀ e ∈ es, dictMem f.ratesView e.1 = true) →
      (es.map Prod.fst).Nodup →
      (∀ e ∈ es, dictMem acc e.1 = false) →
      negRatesGo f es acc =
        .ok (acc ++ es.filter (fun e => !f.isIgnoredFlag e.1 && decide (e.2 < 0)))
  | [], acc, _, _, _ => by simp [negRatesGo]
  | e :: es, acc, h1, h2, h3 => by
    have hmem : dictMem f.ratesView e.1 = true := h1 e (by simp)
    have hig : f.isIgnored e.1 = .ok (f.isIgnoredFlag e.1) := by
      simp [Factory.isIgnored, hmem]
    simp only [List.map_cons, List.nodup_cons] at h2
    have htail1 : ∀ x ∈ es, dictMem f.ratesView x.1 = true :=
      fun x hx => h1 x (by simp [hx])
    have htail3 : ∀ x ∈ es, dictMem acc x.1 = false :=
      fun x hx => h3 x (by simp [hx])
    have hfresh : ∀ x ∈ es, dictMem (acc ++ [e]) x.1 = false := by
      intro x hx
      rw [dictMem_append]
      have hxe : ¬ (e.1 = x.1) := by
        intro hEq
        exact h2.1 (hEq ▸ List.mem_map_of_mem Prod.fst hx)
      have h1e : dictMem [e] x.1 = false := by simp [dictMem, hxe]
      simp [htail3 x hx, h1e]
    rw [negRatesGo, hig]
    show negRatesGo f es
        (if ¬ f.isIgnoredFlag e.1 = true ∧ e.2 < 0 then dictSet acc e.1 e.2 else acc) =
      .ok (acc ++ (e :: es).filter (fun x => !f.isIgnoredFlag x.1 && decide (x.2 < 0)))
    by_cases hflag : f.isIgnoredFlag e.1 = true
    · rw [if_neg (by simp [hflag]),
        negRatesGo_eq_filter f es acc htail1 h2.2 htail3]
      simp [List.filter_cons, hflag]
    · by_cases hlt : e.2 < 0
      · rw [if_pos ⟨by simp [hflag], hlt⟩,
          dictSet_of_not_mem e.2 (h3 e (by simp)),
          negRatesGo_eq_filter f es (acc ++ [e]) htail1 h2.2 hfresh]
        simp [List.filter_cons, hflag, hlt]
      · rw [if_neg (by simp [hlt]),
          negRatesGo_eq_filter f es acc htail1 h2.2 htail3]
        simp [List.filter_cons, hlt]

/-- When the factory's rate map has pairwise-distinct keys,
`negative_rates` succeeds and returns exactly its filtered entries. -/
theorem Factory.negativeRates_eq_filter (f : Factory)
    (hnd : (f.ratesView.map Prod.fst).Nodup) :
    f.negativeRates =
      .ok (f.ratesView.filter (fun e => !f.isIgnoredFlag e.1 && decide (e.2 < 0))) := by
  rw [Factory.negativeRates,
    negRatesGo_eq_filter f f.ratesView []
      (fun e he => dictMem_of_mem he) hnd (fun e _ => rfl)]
  simp

/-- Looking a key up in a key-distinct dict filtered by `g` finds exactly
the entries of the original dict that satisfy `g`. -/
theorem dictFind?_filter (g : Product × Rat → Bool) :
    ∀ (d : RateDict), (d.map Prod.fst).Nodup → ∀ (p : Product) (r : Rat),
      (dictFind? (d.filter g) p = some r ↔ dictFind? d p = some r ∧ g (p, r) = true)
  | [], _, p, r => by simp [dictFind?]
  | e :: d, hnd, p, r => by
    simp only [List.map_cons, List.nodup_cons] at hnd
    by_cases hep : e.1 = p
    · have hr : dictFind? (e :: d) p = some e.2 := by
        simp [dictFind?, List.find?_cons_of_pos, hep]
      by_cases hge : g e = true
      · rw [List.filter_cons_of_pos hge]
        have hl : dictFind? (e :: d.filter g) p = some e.2 := by
          simp [dictFind?, List.find?_cons_of_pos, hep]
        rw [hl, hr]
        constructor
        · intro h
          have he2 : e.2 = r := Option.some.inj h
          refine ⟨h, ?_⟩
          rw [← he2, ← hep, Prod.mk.eta]
          exact hge
        · exact fun h => h.1
      · rw [List.filter_cons_of_neg (by simpa using hge)]
        have hnone : dictFind? (d.filter g) p = none := by
          apply dictFind?_eq_none
          rw [← hep]
          have : dictMem d e.1 = false := by
            simp only [dictMem, List.any_eq_false, decide_eq_true_eq]
            intro x hx hEq
            exact hnd.1 (hEq ▸ List.mem_map_of_mem Prod.fst hx)
          simp only [dictMem, List.any_eq_false, decide_eq_true_eq] at this ⊢
          intro x hx
          exact fun hEq => this x (List.mem_filter.mp hx).1 hEq
        rw [hnone, hr]
        constructor
        · intro h; exact absurd h (by simp)
        · rintro ⟨h, hg⟩
          have he2 : e.2 = r := Option.some.inj h
          rw [← he2, ← hep, Prod.mk.eta] at hg
          exact absurd hg hge
    · have hskipR : dictFind? (e :: d) p = dictFind? d p := by
        simp [dictFind?, List.find?_cons_of_neg, hep]
      by_cases hge : g e = true
      · rw [List.filter_cons_of_pos hge]
        have hskipL : dictFind? (e :: d.filter g) p = dictFind? (d.filter g) p := by
          simp [dictFind?, List.find?_cons_of_neg, hep]
        rw [hskipL, hskipR]
        exact dictFind?_filter g d hnd.2 p r
      · rw [List.filter_cons_of_neg (by simpa using hge), hskipR]
        exact dictFind?_filter g d hnd.2 p r

/-- C3: for every `Factory` (with the rate map's keys pairwise distinct, as
Python dict keys are), `negative_rates()` returns exactly the products whose
current net rate is strictly negative and that are not marked ignored, each
mapped to that negative rate: it never includes a product marked ignored,
and it always includes every non-ignored product whose current rate is
strictly negative. -/
theorem c3_negative_rates_exact (f : Factory)
    (hnd : (f.ratesView.map Prod.fst).Nodup) :
    ∃ d, f.negativeRates = .ok d ∧
      (∀ p, f.isIgnoredFlag p = true → dictFind? d p = none) ∧
      (∀ p r, dictFind? d p = some r ↔
        (dictFind? f.ratesView p = some r ∧ r < 0 ∧ f.isIgnoredFlag p = false)) := by
  refine ⟨_, f.negativeRates_eq_filter hnd, ?_, ?_⟩
  · intro p hp
    cases hfind : dictFind?
        (f.ratesView.filter (fun e => !f.isIgnoredFlag e.1 && decide (e.2 < 0))) p with
    | none => rfl
    | some r =>
      have h := (dictFind?_filter _ f.ratesView hnd p r).1 hfind
      rw [hp] at h
      simpa using h.2
  · intro p r
    rw [dictFind?_filter _ f.ratesView hnd p r]
    constructor
    · rintro ⟨h1, h2⟩
      simp only [Bool.and_eq_true, Bool.not_eq_true', decide_eq_true_eq] at h2
      exact ⟨h1, h2.2, h2.1⟩
    · rintro ⟨h1, h2, h3⟩
      refine ⟨h1, ?_⟩
      simp [h2, h3]

/-- A crafter-free factory with a populated rate map:
Iron Ingot at `-2/s`, Iron Ore at `+3/s`, Slag at `-1/s`, Slag ignored. -/
def sampleFactory : Factory :=
  ⟨⟨2, ironIngot⟩, [], [(ironIngot, -2), (ironOre, 3), (slag, -1)], [(slag, true)]⟩

/-- Witness for C3 at `sampleFactory`. -/
theorem c3_negative_rates_exact_witness :
    (sampleFactory.ratesView.map Prod.fst).Nodup ∧
    ∃ d, sampleFactory.negativeRates = .ok d ∧
      (∀ p, sampleFactory.isIgnoredFlag p = true → dictFind? d p = none) ∧
      (∀ p r, dictFind? d p = some r ↔
        (dictFind? sampleFactory.ratesView p = some r ∧ r < 0 ∧
          sampleFactory.isIgnoredFlag p = false)) :=
  ⟨by decide, c3_negative_rates_exact sampleFactory (by decide)⟩

/-! ## `abbreviations.py`: `Abbreviation` and its matching rule

The constructor compiles `NON_CAPITALS.join(f"^{string}$")` where
`NON_CAPITALS = "[^A-Z]*"`: `str.join` runs over the characters of
`"^" + string + "$"`, producing the anchored pattern
`^[^A-Z]*s₁[^A-Z]*s₂…[^A-Z]*sₙ[^A-Z]*$` for `string = s₁s₂…sₙ`
(the characters are alphabetic, hence regex literals).  `abbreviates` is
`re.match` of that pattern, i.e. whole-string membership in its language.
Python's `str.isalpha` (Unicode letters) is modelled by `Char.isAlpha` on
the ASCII data actually used. -/

/-- The regex character class `[^A-Z]` complemented: an ASCII uppercase letter. -/
def isUpperAZ (c : Char) : Bool := 'A' ≤ c && c ≤ 'Z'

/-- A validated abbreviation shorthand. -/
structure Abbreviation where
  string : String
deriving DecidableEq, Repr

/-- `Abbreviation.__init__`: rejects the empty string and non-alphabetic strings. -/
def mkAbbreviation (string : String) : Except Err Abbreviation :=
  if string = "" then .error .invalidAbbreviation
  else if ¬ (string.toList.all Char.isAlpha = true) then .error .invalidAbbreviation
  else .ok ⟨string⟩

/-- The language of the compiled pattern: at each position either the next
candidate character is the next shorthand character, or it is a
non-uppercase character absorbed by the current `[^A-Z]*` gap; at the end
of the shorthand the rest of the candidate must be all non-uppercase.
`re.match` (with the `^…$` anchors and backtracking) succeeds exactly when
some such reading of the whole candidate exists. -/
def abbrevMatch : List Char → List Char → Bool
  | [], l => l.all (fun c => !(isUpperAZ c))
  | _ :: _, [] => false
  | s :: ss, c :: cs =>
    (c = s && abbrevMatch ss cs) || (!(isUpperAZ c) && abbrevMatch (s :: ss) cs)

/-- `Abbreviation.abbreviates`. -/
def Abbreviation.abbreviates (a : Abbreviation) (long_string : String) : Bool :=
  abbrevMatch a.string.toList long_string.toList

/-! ### The spec-side decomposition predicate (stated from the spec's words,
to be proved equivalent to the code's matcher) -/

/-- `interleaveGaps [s₁, …, sₙ] [g₀, …, gₙ] = g₀ ++ [s₁] ++ g₁ ++ … ++ [sₙ] ++ gₙ`
(junk when the lengths disagree). -/
def interleaveGaps : List Char → List (List Char) → List Char
  | [], [g] => g
  | s :: ss, g :: gs => g ++ s :: interleaveGaps ss gs
  | _, _ => []

/-- The spec's matching rule: the candidate decomposes as an optional run of
non-uppercase characters, then the shorthand's first character, another such
run, the second character, and so on, ending with the shorthand's last
character and a final optional run of non-uppercase characters. -/
def Decomposes (s l : List Char) : Prop :=
  ∃ gaps : List (List Char),
    gaps.length = s.length + 1 ∧
    (∀ g ∈ gaps, ∀ c ∈ g, isUpperAZ c = false) ∧
    l = interleaveGaps s gaps

theorem decomposes_nil_right {s : List Char} (hs : s ≠ []) : ¬ Decomposes s [] := by
  rintro ⟨gaps, hlen, _, hinter⟩
  rcases s with _ | ⟨a, ss⟩
  · exact hs rfl
  · rcases gaps with _ | ⟨g, gs⟩
    · simp at hlen
    · rw [interleaveGaps] at hinter
      have := congrArg List.length hinter
      simp only [List.length_nil, List.length_append, List.length_cons] at this
      omega

theorem decomposes_nil_left (l : List Char) :
    Decomposes [] l ↔ ∀ c ∈ l, isUpperAZ c = false := by
  constructor
  · rintro ⟨gaps, hlen, hrun, hinter⟩
    rcases gaps with _ | ⟨g, gs⟩
    · simp at hlen
    · rcases gs with _ | ⟨g', gs'⟩
      · rw [interleaveGaps] at hinter
        subst hinter
        exact hrun l (by simp)
      · simp at hlen
  · intro h
    refine ⟨[l], rfl, ?_, rfl⟩
    intro g hg
    simp only [List.mem_singleton] at hg
    subst hg
    exact h

theorem decomposes_cons_iff (a : Char) (ss : List Char) (c : Char) (cs : List Char) :
    Decomposes (a :: ss) (c :: cs) ↔
      ((c = a ∧ Decomposes ss cs) ∨
        (isUpperAZ c = false ∧ Decomposes (a :: ss) cs)) := by
  constructor
  · rintro ⟨gaps, hlen, hrun, hinter⟩
    rcases gaps with _ | ⟨g, gs⟩
    · simp at hlen
    · rw [interleaveGaps] at hinter
      rcases g with _ | ⟨c', g'⟩
      · simp only [List.nil_append] at hinter
        obtain ⟨hca, hcs⟩ := List.cons.inj hinter
        refine Or.inl ⟨hca, gs, ?_, ?_, hcs⟩
        · simpa using hlen
        · exact fun g hg => hrun g (by simp [hg])
      · simp only [List.cons_append] at hinter
        obtain ⟨hcc, hcs⟩ := List.cons.inj hinter
        subst hcc
        refine Or.inr ⟨hrun (c :: g') (by simp) c (by simp), g' :: gs, ?_, ?_, hcs⟩
        · simpa using hlen
        · intro g hg
          rcases List.mem_cons.mp hg with hg | hg
          · subst hg
            exact fun x hx => hrun (c :: g) (by simp) x (by simp [hx])
          · exact hrun g (by simp [hg])
  · rintro (⟨hca, gs, hlen, hrun, hinter⟩ | ⟨hupper, gaps, hlen, hrun, hinter⟩)
    · refine ⟨[] :: gs, by simpa using hlen, ?_, ?_⟩
      · intro g hg
        rcases List.mem_cons.mp hg with hg | hg
        · subst hg; intro x hx; cases hx
        · exact hrun g hg
      · rw [interleaveGaps, List.nil_append, hca, ← hinter]
    · rcases gaps with _ | ⟨g, gs⟩
      · simp at hlen
      · refine ⟨(c :: g) :: gs, by simpa using hlen, ?_, ?_⟩
        · intro x hx
          rcases List.mem_cons.mp hx with hx | hx
          · subst hx
            intro y hy
            rcases List.mem_cons.mp hy with hy | hy
            · subst hy; exact hupper
            · exact hrun g (by simp) y hy
          · exact hrun x (by simp [hx])
        · rw [interleaveGaps] at hinter ⊢
          rw [List.cons_append, ← hinter]

/-- The code's matcher agrees with the spec's decomposition, for every
shorthand and every candidate. -/
theorem abbrevMatch_iff_decomposes :
    ∀ (l s : List Char), (abbrevMatch s l = true ↔ Decomposes s l)
  | [], [] => by
    constructor
    · intro _
      exact (decomposes_nil_left []).mpr (by simp)
    · intro _; rfl
  | [], a :: ss => by
    constructor
    · intro h; exact absurd h (by simp [abbrevMatch])
    · intro h; exact absurd h (decomposes_nil_right (by simp))
  | c :: cs, [] => by
    rw [decomposes_nil_left]
    show ((c :: cs).all fun x => !(isUpperAZ x)) = true ↔ _
    simp [List.all_eq_true]
  | c :: cs, a :: ss => by
    rw [abbrevMatch, decomposes_cons_iff, Bool.or_eq_true, Bool.and_eq_true,
      Bool.and_eq_true, abbrevMatch_iff_decomposes cs ss,
      abbrevMatch_iff_decomposes cs (a :: ss)]
    simp

/-- C5: for every shorthand `S` accepted by the `Abbreviation` constructor
and every candidate `L`, `Abbreviation(S).abbreviates(L)` holds iff `L`
decomposes as optional runs of non-uppercase characters interleaved with
`S`'s characters in order; `"XRC"` abbreviates `"X-Ray Cracking"`; and
constructing an `Abbreviation` from an empty or non-alphabetic string fails
with `InvalidAbbreviation`. -/
theorem c5_abbreviation_matching :
    (∀ (S L : String) (ab : Abbreviation), mkAbbreviation S = .ok ab →
      (ab.abbreviates L = true ↔ Decomposes S.toList L.toList)) ∧
    (∀ S : String, S = "" ∨ ¬ (S.toList.all Char.isAlpha = true) →
      mkAbbreviation S = .error .invalidAbbreviation) ∧
    mkAbbreviation "XRC" = .ok ⟨"XRC"⟩ ∧
    (Abbreviation.mk "XRC").abbreviates "X-Ray Cracking" = true := by
  refine ⟨?_, ?_, by rfl, by decide⟩
  · intro S L ab hok
    have hstr : ab.string = S := by
      rw [mkAbbreviation] at hok
      split at hok
      · cases hok
      · split at hok
        · cases hok
        · cases hok; rfl
    rw [Abbreviation.abbreviates, hstr]
    exact abbrevMatch_iff_decomposes L.toList S.toList
  · intro S h
    rcases h with h | h
    · subst h; rfl
    · rw [mkAbbreviation]
      by_cases hS : S = ""
      · rw [if_pos hS]
      · rw [if_neg hS, if_pos h]

/-- Witness for C5: the matcher/decomposition equivalence applied at
`"XRC"` / `"X-Ray Cracking"`, and the constructor failure applied at `""`. -/
theorem c5_abbreviation_matching_witness :
    (mkAbbreviation "XRC" = .ok ⟨"XRC"⟩ ∧
      ((Abbreviation.mk "XRC").abbreviates "X-Ray Cracking" = true ↔
        Decomposes "XRC".toList "X-Ray Cracking".toList)) ∧
    (("" : String) = "" ∨ ¬ (("" : String).toList.all Char.isAlpha = true)) ∧
    mkAbbreviation "" = .error .invalidAbbreviation :=
  ⟨⟨by rfl,
    c5_abbreviation_matching.1 "XRC" "X-Ray Cracking" ⟨"XRC"⟩ (by rfl)⟩,
   Or.inl rfl,
   c5_abbreviation_matching.2.1 "" (Or.inl rfl)⟩

/-! ## `abbreviations.py`: `AbbreviationResolver` -/

/-- Resolver state: the candidate set (`string_collection`, modelled as a
duplicate-free list) and the `lookup_table` cache. -/
structure AbbreviationResolver where
  string_collection : List String
  lookup_table : List (String × String)
deriving DecidableEq, Repr

/-- `AbbreviationResolver._resolve_abbreviation`: test every candidate;
more than one match fails as ambiguous (reporting all matches), zero
matches fail as no-match, exactly one match is returned. -/
def resolveAbbreviation (r : AbbreviationResolver) (ab : Abbreviation) :
    Except Err String :=
  let possible := r.string_collection.filter (fun l => ab.abbreviates l)
  if 1 < possible.length then .error (.ambiguous possible)
  else
    match possible with
    | [m] => .ok m
    | _ => .error .noMatch

/-- `AbbreviationResolver.__call__`: on a cache hit return the cached full
name; on a miss build an `Abbreviation` and run `_resolve_abbreviation`.
The computed resolution is returned WITHOUT being stored: no branch writes
`lookup_table`, so the post-call state always equals the input state. -/
def resolverCall (r : AbbreviationResolver) (abbrev_str : String) :
    Except Err String × AbbreviationResolver :=
  match (r.lookup_table.find? (fun e => e.1 = abbrev_str)).map (fun e => e.2) with
  | some full => (.ok full, r)
  | none =>
    match mkAbbreviation abbrev_str with
    | .error e => (.error e, r)
    | .ok ab => (resolveAbbreviation r ab, r)

/-- C6 (code bug): a single-match resolve returns the full name, but the
cache is never populated — the resolver state after any call equals the
state before it, so a subsequent resolve of the same shorthand re-matches
the whole candidate set instead of using a cached entry.  The zero-match
and multi-match failure modes do behave as the claim says. -/
theorem c6_resolver_cache_never_populated :
    (resolverCall ⟨["X-Ray Cracking"], []⟩ "XRC").1 = .ok "X-Ray Cracking" ∧
    (resolverCall ⟨["X-Ray Cracking"], []⟩ "XRC").2.lookup_table = [] ∧
    (∀ (r : AbbreviationResolver) (s : String), (resolverCall r s).2 = r) ∧
    (resolverCall ⟨["X-Ray Cracking", "X-Ray Crystallography"], []⟩ "XRC").1 =
      .error (.ambiguous ["X-Ray Cracking", "X-Ray Crystallography"]) ∧
    (resolverCall ⟨["X-Ray Cracking", "X-Ray Crystallography"], []⟩ "ZZZ").1 =
      .error .noMatch := by
  refine ⟨by rfl, by rfl, ?_, by rfl, by rfl⟩
  intro r s
  rw [resolverCall]
  split
  · rfl
  · split
    · rfl
    · rfl

/-! ## `recipes.py`: `Recipe.__init__`

The constructor canonicalizes the outputs/inputs lists with
`sorted(..., key=hash)`.  The element type is a frozen dataclass, so its
CPython hash is the hash of the tuple of its fields' hashes: a function of
`hash(quantity)` (the deterministic integer hash `pyHashInt`) and
`hash(product.name)` (seed-randomized string hashing).  We therefore take
the sort key as an explicit parameter `key`; every hash CPython can
produce is an instance of `key` satisfying `pyHashCompat` below. -/

/-- CPython's hash of an `int` on a 64-bit build: reduction modulo the
Mersenne prime `2^61 - 1`, negatives mirrored, `-1` mapped to `-2`.
Integer hashing is NOT seed-randomized. -/
def pyHashInt (n : Int) : Int :=
  let M : Int := 2 ^ 61 - 1
  if 0 ≤ n then n % M
  else
    let h := -((-n) % M)
    if h = -1 then -2 else h

/-- What CPython guarantees of the dataclass hash used as the sort key:
it factors through the field hashes, so two quantities with equal integer
hash give equal keys on the same product (for every hash seed). -/
def pyHashCompat (key : ProductQuantity Int → Int) : Prop :=
  ∀ (q q' : Int) (p : Product), pyHashInt q = pyHashInt q' → key ⟨q, p⟩ = key ⟨q', p⟩

/-- `sorted(l, key=key)`: Python's sort is stable, and a stable sort is
extensionally determined by the key preorder, so insertion sort with
`key a ≤ key b` computes the same list. -/
def sortByKey (key : ProductQuantity Int → Int) (l : List (ProductQuantity Int)) :
    List (ProductQuantity Int) :=
  List.insertionSort (fun a b => key a ≤ key b) l

/-- The local variable `autoname` of `Recipe.__init__`: assigned only when
there is exactly one output (`none` models "never assigned"). -/
def autonameOf (outputs : List (ProductQuantity Int)) : Option String :=
  match outputs with
  | [q] => some q.product.name
  | _ => none

/-- `Recipe.__init__`: optional `autoname` (assigned only for exactly one
output), name resolution (`UnboundLocalError` when `name is None` and
`autoname` was never assigned), strip-and-validate, emptiness checks, and
canonicalization of both ingredient lists by the sort key. -/
def mkRecipe (key : ProductQuantity Int → Int) (name : Option String)
    (outputs inputs : List (ProductQuantity Int)) (period : Rat)
    (made_in : FacilityCategory) : Except Err Recipe :=
  let autoname : Option String := autonameOf outputs
  let resolved : Except Err String :=
    match name, autoname with
    | some n, _ => .ok n
    | none, some a => .ok a
    | none, none => .error .unboundLocalAutoname
  match resolved with
  | .error e => .error e
  | .ok n =>
    let cleaned := pyStrip n
    if cleaned = "" then .error .invalidName
    else if outputs.length < 1 then .error .emptyOutputs
    else if inputs.length < 1 then .error .emptyInputs
    else .ok ⟨cleaned, sortByKey key outputs, sortByKey key inputs, period, made_in⟩

/-- Sorting by a key that separates the list's elements is canonical:
permuted inputs sort to the same list. -/
theorem sortByKey_eq_of_perm (key : ProductQuantity Int → Int)
    {l l' : List (ProductQuantity Int)} (hp : l.Perm l')
    (hinj : ∀ x ∈ l, ∀ y ∈ l, key x = key y → x = y) :
    sortByKey key l = sortByKey key l' := by
  haveI htot : IsTotal (ProductQuantity Int) (fun a b => key a ≤ key b) :=
    ⟨fun a b => le_total (key a) (key b)⟩
  haveI htrans : IsTrans (ProductQuantity Int) (fun a b => key a ≤ key b) :=
    ⟨fun _ _ _ hab hbc => le_trans hab hbc⟩
  haveI hanti : IsAntisymm (ProductQuantity Int) (fun a b => key a < key b ∨ a = b) := by
    constructor
    intro a b hab hba
    rcases hab with hab | hab
    · rcases hba with hba | hba
      · exact absurd hba (not_lt.mpr (le_of_lt hab))
      · exact hba.symm
    · exact hab
  have hmem1 : ∀ x ∈ sortByKey key l, x ∈ l :=
    fun x hx => (List.perm_insertionSort _ l).subset hx
  have hmem2 : ∀ x ∈ sortByKey key l', x ∈ l :=
    fun x hx => hp.mem_iff.mpr ((List.perm_insertionSort _ l').subset hx)
  have hs1 : (sortByKey key l).Pairwise (fun a b => key a < key b ∨ a = b) := by
    refine List.Pairwise.imp_of_mem ?_
      (List.sorted_insertionSort (fun a b => key a ≤ key b) l)
    intro a b ha hb hab
    rcases lt_or_eq_of_le hab with h | h
    · exact Or.inl h
    · exact Or.inr (hinj a (hmem1 a ha) b (hmem1 b hb) h)
  have hs2 : (sortByKey key l').Pairwise (fun a b => key a < key b ∨ a = b) := by
    refine List.Pairwise.imp_of_mem ?_
      (List.sorted_insertionSort (fun a b => key a ≤ key b) l')
    intro a b ha hb hab
    rcases lt_or_eq_of_le hab with h | h
    · exact Or.inl h
    · exact Or.inr (hinj a (hmem2 a ha) b (hmem2 b hb) h)
  exact List.eq_of_perm_of_sorted
    ((List.perm_insertionSort _ l).trans (hp.trans (List.perm_insertionSort _ l').symm))
    hs1 hs2

/-- C7 amended: recipes built from permuted outputs/inputs lists compare
equal (hence also hash equal, hashing being a function of the value)
PROVIDED the sort key separates the elements of each list — i.e. no two
distinct elements collide under the hash used as the key.  (The unamended
claim fails: see the counterexample with CPython's deterministic integer
hash collision `pyHashInt 1 = pyHashInt (2^61)`.) -/
theorem c7_perm_invariance_amended (key : ProductQuantity Int → Int)
    (name : Option String) (outs outs' ins ins' : List (ProductQuantity Int))
    (period : Rat) (made_in : FacilityCategory)
    (ho : outs.Perm outs') (hi : ins.Perm ins')
    (hko : ∀ x ∈ outs, ∀ y ∈ outs, key x = key y → x = y)
    (hki : ∀ x ∈ ins, ∀ y ∈ ins, key x = key y → x = y) :
    mkRecipe key name outs ins period made_in =
      mkRecipe key name outs' ins' period made_in := by
  have hsorto : sortByKey key outs = sortByKey key outs' := sortByKey_eq_of_perm key ho hko
  have hsorti : sortByKey key ins = sortByKey key ins' := sortByKey_eq_of_perm key hi hki
  have hlo : outs.length = outs'.length := ho.length_eq
  have hli : ins.length = ins'.length := hi.length_eq
  have hauto : autonameOf outs = autonameOf outs' := by
    rcases outs with _ | ⟨a1, outs0⟩
    · rcases outs' with _ | ⟨b1, outs0'⟩
      · rfl
      · simp at hlo
    · rcases outs' with _ | ⟨b1, outs0'⟩
      · simp at hlo
      · rcases outs0 with _ | ⟨a2, outs1⟩
        · rcases outs0' with _ | ⟨b2, outs1'⟩
          · have hb : [b1] = [a1] := List.perm_singleton.mp ho.symm
            obtain ⟨hb1, -⟩ := List.cons.inj hb
            show some a1.product.name = some b1.product.name
            rw [hb1]
          · simp at hlo
        · rcases outs0' with _ | ⟨b2, outs1'⟩
          · simp at hlo
          · rfl
  simp only [mkRecipe, hauto, hsorto, hsorti, hlo, hli]

/-- Witness for C7's amended theorem at concrete separated keys. -/
theorem c7_perm_invariance_amended_witness :
    ([(⟨1, ironIngot⟩ : ProductQuantity Int), ⟨2, slag⟩].Perm
      [⟨2, slag⟩, ⟨1, ironIngot⟩]) ∧
    mkRecipe (fun pq => pyHashInt pq.quantity) (some "R")
        [⟨1, ironIngot⟩, ⟨2, slag⟩] [⟨1, ironOre⟩] 1 smelterCat =
      mkRecipe (fun pq => pyHashInt pq.quantity) (some "R")
        [⟨2, slag⟩, ⟨1, ironIngot⟩] [⟨1, ironOre⟩] 1 smelterCat :=
  ⟨List.Perm.swap _ _ _,
   c7_perm_invariance_amended (fun pq => pyHashInt pq.quantity) (some "R")
     [⟨1, ironIngot⟩, ⟨2, slag⟩] [⟨2, slag⟩, ⟨1, ironIngot⟩]
     [⟨1, ironOre⟩] [⟨1, ironOre⟩] 1 smelterCat
     (List.Perm.swap _ _ _) (List.Perm.refl _)
     (by decide) (by decide)⟩

/-- The sort key used in the C7 counterexample: a dataclass hash whose
string-hash component is constant — one admissible CPython hash shape. -/
def collidingKey : ProductQuantity Int → Int := fun pq => pyHashInt pq.quantity

/-- C7 counterexample: the claim as stated is false.  `collidingKey` is
compatible with CPython's hashing guarantees, the two output lists are
permutations of the same multiset, yet the constructed recipes differ:
quantities `1` and `2^61` of the same product collide under CPython's
integer hash (`pyHashInt 1 = 1 = pyHashInt (2^61)`), so the stable sort
preserves each input order and the canonical tuples differ. -/
theorem c7_hash_collision_counterexample :
    pyHashCompat collidingKey ∧
    pyHashInt 1 = pyHashInt (2 ^ 61) ∧
    ([(⟨1, ironIngot⟩ : ProductQuantity Int), ⟨2 ^ 61, ironIngot⟩].Perm
      [⟨2 ^ 61, ironIngot⟩, ⟨1, ironIngot⟩]) ∧
    mkRecipe collidingKey (some "R")
        [⟨1, ironIngot⟩, ⟨2 ^ 61, ironIngot⟩] [⟨1, ironOre⟩] 1 smelterCat ≠
      mkRecipe collidingKey (some "R")
        [⟨2 ^ 61, ironIngot⟩, ⟨1, ironIngot⟩] [⟨1, ironOre⟩] 1 smelterCat := by
  refine ⟨fun q q' p h => h, by decide, List.Perm.swap _ _ _, ?_⟩
  intro hEq
  have h1 : mkRecipe collidingKey (some "R")
      [⟨1, ironIngot⟩, ⟨2 ^ 61, ironIngot⟩] [⟨1, ironOre⟩] 1 smelterCat =
      .ok ⟨"R", [⟨1, ironIngot⟩, ⟨2 ^ 61, ironIngot⟩], [⟨1, ironOre⟩], 1, smelterCat⟩ := by
    rfl
  have h2 : mkRecipe collidingKey (some "R")
      [⟨2 ^ 61, ironIngot⟩, ⟨1, ironIngot⟩] [⟨1, ironOre⟩] 1 smelterCat =
      .ok ⟨"R", [⟨2 ^ 61, ironIngot⟩, ⟨1, ironIngot⟩], [⟨1, ironOre⟩], 1, smelterCat⟩ := by
    rfl
  rw [h1, h2] at hEq
  have := Except.ok.inj hEq
  have houts := congrArg Recipe.outputs this
  simp at houts

/-- C8 (code bug): with no explicit name and exactly one output the recipe
is named after that sole output; with no explicit name and more than one
output the constructor evaluates the never-assigned local `autoname`, so
Python raises `UnboundLocalError` — not the `NameRequiredForMultiOutputRecipe`
data-validation error the claim calls for. -/
theorem c8_recipe_default_naming :
    ∀ key : ProductQuantity Int → Int,
      mkRecipe key none [⟨1, ironIngot⟩] [⟨1, ironOre⟩] 1 smelterCat =
        .ok ⟨"Iron Ingot", [⟨1, ironIngot⟩], [⟨1, ironOre⟩], 1, smelterCat⟩ ∧
      mkRecipe key none [⟨1, ironIngot⟩, ⟨1, slag⟩] [⟨1, ironOre⟩] 1 smelterCat =
        .error .unboundLocalAutoname := by
  intro key
  constructor
  · rfl
  · rfl

/-! ## `recipe_readers.py`: line patterns

The four anchored patterns of the reader, embedded as matchers on the
already-stripped, newline-free lines.  Greedy matching with backtracking is
resolved explicitly: each `X*`/`X+` run is maximal except where giving one
character back is the only way the rest of the pattern can match. -/

/-- `^([0-9]+) +(.+)$`: groups `(digits, rest)`.  Maximal digit run, at
least one space, then a non-empty rest; when everything after the spaces is
empty but at least two spaces were read, backtracking hands the final space
to `(.+)`. -/
def matchIngredient (line : String) : Option (String × String) :=
  let cs := line.toList
  let ds := cs.takeWhile (fun c => c.isDigit)
  let rest1 := cs.dropWhile (fun c => c.isDigit)
  if ds.isEmpty then none
  else
    let sp := rest1.takeWhile (fun c => c = ' ')
    let rest2 := rest1.dropWhile (fun c => c = ' ')
    if sp.isEmpty then none
    else if ¬ rest2.isEmpty then some (ds.asString, rest2.asString)
    else if 2 ≤ sp.length then some (ds.asString, " ")
    else none

/-- `[0-9.]`. -/
def isDigitOrDot (c : Char) : Bool := c.isDigit || c = '.'

/-- `^\^ *([0-9.]+) *s *\((.+)\)$`: groups `(seconds, category)`.  The
greedy `(.+)` makes the group run to the LAST `)`, which must close the
line. -/
def matchArrow (line : String) : Option (String × String) :=
  match line.toList with
  | '^' :: rest =>
    let rest1 := rest.dropWhile (fun c => c = ' ')
    let num := rest1.takeWhile isDigitOrDot
    let rest2 := rest1.dropWhile isDigitOrDot
    if num.isEmpty then none
    else
      match rest2.dropWhile (fun c => c = ' ') with
      | 's' :: rest4 =>
        match rest4.dropWhile (fun c => c = ' ') with
        | '(' :: rest6 =>
          match rest6.reverse with
          | ')' :: revMid =>
            if revMid.isEmpty then none
            else some (num.asString, revMid.reverse.asString)
          | _ => none
        | _ => none
      | _ => none
  | _ => none

/-- `^<> *(.+)$`: the nametag text.  As with the ingredient pattern, a
name consisting only of spaces survives as a single space via backtracking
(unreachable on stripped lines). -/
def matchNametag (line : String) : Option String :=
  match line.toList with
  | '<' :: '>' :: rest =>
    let sp := rest.takeWhile (fun c => c = ' ')
    let r := rest.dropWhile (fun c => c = ' ')
    if ¬ r.isEmpty then some r.asString
    else if ¬ sp.isEmpty then some " "
    else none
  | _ => none

/-! ## `rational_utilities.py`: `read_rational` on arrow-line numbers -/

/-- Value of an all-digit character list. -/
def natOfDigits (cs : List Char) : Nat :=
  cs.foldl (fun n c => 10 * n + (c.toNat - '0'.toNat)) 0

/-- Split a character list at every `'.'`. -/
def splitOnDot : List Char → List (List Char)
  | [] => [[]]
  | '.' :: rest => [] :: splitOnDot rest
  | c :: rest =>
    match splitOnDot rest with
    | g :: gs => (c :: g) :: gs
    | [] => [[c]]

/-- `Fraction(string)` as used by `read_rational`, restricted to the
`[0-9.]+` strings the arrow pattern can produce: a plain digit run, or one
decimal point with digits on at least one side (`Fraction` requires a
leading digit or `.digit`); anything else raises.  The `"//" → "/"`
replacement is vacuous on this alphabet. -/
def readRationalDD (s : String) : Except Err Rat :=
  match splitOnDot s.toList with
  | [a] =>
    if ¬ a.isEmpty ∧ a.all (fun c => c.isDigit) then .ok (natOfDigits a : Rat)
    else .error .badRational
  | [a, b] =>
    if (¬ a.isEmpty ∨ ¬ b.isEmpty) ∧ a.all (fun c => c.isDigit) ∧
        b.all (fun c => c.isDigit) then
      .ok (((natOfDigits a * 10 ^ b.length + natOfDigits b : Nat) : Rat) /
        ((10 ^ b.length : Nat) : Rat))
    else .error .badRational
  | _ => .error .badRational

/-! ## `recipe_readers.py`: block parsing -/

/-- `_parse_ingredient`: `None` out of bounds or on a non-matching line,
otherwise the parsed quantity and (validated, stripped) product. -/
def parseIngredient (block : List String) (i : Nat) :
    Except Err (Option (ProductQuantity Int)) :=
  if h : i < block.length then
    match matchIngredient block[i] with
    | none => .ok none
    | some (num, prod) =>
      match mkProduct prod with
      | .error e => .error e
      | .ok p => .ok (some ⟨(natOfDigits num.toList : Int), p⟩)
  else .ok none

/-- The `while ingredient is not None` loop body, with the remaining
iteration budget made structural.  The loop advances `i` by one per
iteration and `_parse_ingredient` returns `None` as soon as `i` leaves the
block, so it runs at most `block.length - i` times; with that budget the
`0` case (`i` already past the end) agrees with the out-of-bounds `None`. -/
def collectLoop (block : List String) : Nat → Nat →
    Except Err (List (ProductQuantity Int) × Nat)
  | 0, i => .ok ([], i)
  | fuel + 1, i =>
    match parseIngredient block i with
    | .error e => .error e
    | .ok none => .ok ([], i)
    | .ok (some ing) =>
      match collectLoop block fuel (i + 1) with
      | .error e => .error e
      | .ok (rest, j) => .ok (ing :: rest, j)

/-- The `while ingredient is not None` loops of `read_recipe`: collect
ingredients from index `i` on, returning them with the stopping index. -/
def collectIngredients (block : List String) (i : Nat) :
    Except Err (List (ProductQuantity Int) × Nat) :=
  collectLoop block (block.length - i) i

/-- `_parse_arrow_line`: bounds check, pattern match, then the period (via
`read_rational`) and the validated facility category. -/
def parseArrowLine (block : List String) (i : Nat) :
    Except Err (Rat × FacilityCategory) :=
  if h : i < block.length then
    match matchArrow block[i] with
    | none => .error .malformedArrowLine
    | some (sec, cat) =>
      match readRationalDD sec with
      | .error e => .error e
      | .ok q =>
        match mkFacilityCategory cat with
        | .error e => .error e
        | .ok fc => .ok (q, fc)
  else .error .arrowOutOfBounds

/-- `_parse_nametag_line`: `None` out of bounds; then the guard
`if i == len(recipe_block) - 1: raise` REJECTS index `len - 1` — exactly
where a trailing nametag line sits — before the pattern is even tried. -/
def parseNametagLine (block : List String) (i : Nat) :
    Except Err (Option String) :=
  if h : i < block.length then
    if i = block.length - 1 then .error .nametagBeforeEnd
    else
      match matchNametag block[i] with
      | none => .error .malformedNametagLine
      | some name => .ok (some name)
  else .ok none

/-- `read_recipe`: outputs, arrow line, inputs, optional nametag, then the
`Recipe` constructor (which sorts by the hash key). -/
def readRecipe (key : ProductQuantity Int → Int) (block : List String) :
    Except Err Recipe :=
  match collectIngredients block 0 with
  | .error e => .error e
  | .ok (r_outputs, i) =>
    match parseArrowLine block i with
    | .error e => .error e
    | .ok (r_period, r_madein) =>
      match collectIngredients block (i + 1) with
      | .error e => .error e
      | .ok (r_inputs, j) =>
        match parseNametagLine block j with
        | .error e => .error e
        | .ok r_name => mkRecipe key r_name r_outputs r_inputs r_period r_madein

/-! ## `recipe_readers.py`: `read_recipe_file`'s substitution pass -/

/-- One iteration of the substitution loop of `read_recipe_file`.  On an
ingredient line whose product token is not a known product name, the code
runs `product_resolver(productname)` — but the match group was bound as
`product_name`; evaluating the undefined `productname` raises `NameError`
before the resolver is called.  On an arrow line whose category token is
unknown, the category resolver runs and the line is rebuilt as
`f"^ {seconds_string} s ({full_category_name})"`.  (The resolvers are
built once with empty caches; by C6 a call never changes their state, so
using a fresh state per line is equivalent.) -/
def substituteLine (all_products all_categories : List String) (line : String) :
    Except Err String :=
  match matchIngredient line with
  | some (_, product_name) =>
    if product_name ∉ all_products then .error .nameErrorProductname
    else .ok line
  | none =>
    match matchArrow line with
    | some (seconds_string, category_name) =>
      if category_name ∉ all_categories then
        match (resolverCall ⟨all_categories, []⟩ category_name).1 with
        | .error e => .error e
        | .ok full => .ok ("^ " ++ seconds_string ++ " s (" ++ full ++ ")")
      else .ok line
    | none => .ok line

/-- The substitution pass over all lines, stopping at the first exception. -/
def substitutePass (all_products all_categories : List String) :
    List String → Except Err (List String)
  | [] => .ok []
  | line :: rest =>
    match substituteLine all_products all_categories line with
    | .error e => .error e
    | .ok line' =>
      match substitutePass all_products all_categories rest with
      | .error e => .error e
      | .ok rest' => .ok (line' :: rest')

/-- The run accumulator of `_split_on_blank_lines`. -/
def splitBlankGo : List String → List String → List (List String)
  | [], acc => if acc.isEmpty then [] else [acc.reverse]
  | l :: ls, acc =>
    if l = "" then
      if acc.isEmpty then splitBlankGo ls []
      else acc.reverse :: splitBlankGo ls []
    else splitBlankGo ls (l :: acc)

/-- `_split_on_blank_lines`: the maximal runs of non-blank lines. -/
def splitOnBlankLines (lines : List String) : List (List String) :=
  splitBlankGo lines []

/-- `read_recipe_file` after the file I/O: the stripped lines have their
comment lines (`^\#.*$`) removed, the substitution pass runs once over the
whole file, and the result is split into blocks on blank lines. -/
def readRecipeFileLines (all_products all_categories : List String)
    (file_lines : List String) : Except Err (List (List String)) :=
  let kept := file_lines.filter (fun l =>
    match l.toList with
    | '#' :: _ => false
    | _ => true)
  match substitutePass all_products all_categories kept with
  | .error e => .error e
  | .ok lines' => .ok (splitOnBlankLines lines')

/-- C9 (code bug): an ingredient line whose product token needs resolving
makes the pass raise `NameError` on the undefined variable `productname`
instead of substituting the resolved full product name; the category
branch, whose variable is spelled correctly, does substitute.  Known
product tokens pass through unchanged. -/
theorem c9_substitution_pass :
    readRecipeFileLines ["X-Ray Cracking"] ["Smelter"] ["1 XRC"] =
      .error .nameErrorProductname ∧
    readRecipeFileLines ["X-Ray Cracking"] ["Smelter"]
        ["# comment", "^ 2.5 s (Sm)", "", "1 X-Ray Cracking"] =
      .ok [["^ 2.5 s (Smelter)"], ["1 X-Ray Cracking"]] := by
  constructor
  · rfl
  · rfl

/-- C10 (code bug): a well-formed block whose final line is the nametag
`"<> Smelting"` fails with `started to parse nametag line before end of
recipe`, because `_parse_nametag_line` rejects index `len(block) - 1` —
the position every trailing nametag occupies — contradicting the reader's
own grammar comment (`recipe_block := outputs arrow_line inputs
optional_nametag_line`); the same block without the nametag parses to the
default-named Recipe. -/
theorem c10_nametag_parsing :
    ∀ key : ProductQuantity Int → Int,
      readRecipe key ["1 Iron Ingot", "^ 1 s (Smelter)", "1 Iron Ore", "<> Smelting"] =
        .error .nametagBeforeEnd ∧
      readRecipe key ["1 Iron Ingot", "^ 1 s (Smelter)", "1 Iron Ore"] =
        .ok ⟨"Iron Ingot", [⟨1, ironIngot⟩], [⟨1, ironOre⟩], 1, smelterCat⟩ := by
  intro key
  exact ⟨rfl, rfl⟩

end PyRatio

